import Mathlib

/-!
Shallow embedding of the WeatherX League `PredictionPool` NEAR contract
(`contracts/src/contract.ts`).  Amounts are yoctoNEAR `bigint` values, always
non-negative, so they are modelled as `Nat`; `bigint` arithmetic is arbitrary
precision, so no modular reduction is needed.  Contract storage
(`LookupMap`/`Vector`) is modelled as association lists and plain lists;
mutations of `this` become explicit state passing.  A `throw` in the contract
aborts the call; each operation returns the state as of the throw point
together with an `Except` result, so that atomicity (no mutation before a
throw) is a provable property rather than a modelling artifact.
-/

namespace PredictionPool

/-- Constant `MIN_PREDICTION_AMOUNT = BigInt('1000000000000000000000000')` (1 NEAR). -/
def MIN_PREDICTION_AMOUNT : Nat := 1000000000000000000000000

/-- Divisor used in `settle_round`: `BigInt('1000000000000000000000')`. -/
def USDFC_DIVISOR : Nat := 1000000000000000000000

/-- The contract's `enum RoundStatus`: Open, Closed, Settled. -/
inductive RoundStatus
  | Open
  | Closed
  | Settled
deriving DecidableEq, Repr

/-- The `class Round` of the contract. -/
structure Round where
  id : Nat
  title : String
  description : String
  status : RoundStatus
  created_at : Nat
  closed_at : Option Nat := none
  settled_at : Option Nat := none
  result : Option Bool := none
  total_yes_amount : Nat
  total_no_amount : Nat
  yes_predictions : Nat
  no_predictions : Nat
  creator : String
deriving DecidableEq, Repr

/-- The `class Prediction` of the contract. -/
structure Prediction where
  round_id : Nat
  predictor : String
  amount : Nat
  prediction : Bool
  timestamp : Nat
  claimed : Bool
deriving DecidableEq, Repr

/-- The `class CrossChainTransaction`.  The field `status` is declared as a union
of five string literals in TypeScript, but `update_cross_chain_status` writes
an arbitrary caller-supplied string through `status as any`, so it is
modelled as `String`. -/
structure CrossChainTransaction where
  round_id : Nat
  winner : String
  amount : Nat
  fvm_tx_hash : Option String := none
  signed_payload : Option String := none
  status : String
  created_at : Nat
deriving DecidableEq, Repr

/-- The distinct `throw new Error(...)` messages of the contract. -/
inductive Err
  | Unauthorized
  | ContractPaused
  | InvalidTitleLength
  | DescriptionTooLong
  | RoundNotFound
  | RoundNotOpen
  | RoundNotClosed
  | AmountTooLow
  | PredictionNotFound
  | NotYourPrediction
  | AlreadyClaimed
  | RoundNotSettled
  | NoResultAvailable
  | PredictionIncorrect
  | NoWinningPool
  | FeeTooHigh
  | TransactionNotFound
deriving DecidableEq, Repr

/-- Fields of `@NearBindgen class PredictionPool`. -/
structure State where
  owner : String
  next_round_id : Nat
  rounds : List (Nat × Round)
  predictions : List Prediction
  user_predictions : List (String × List Nat)
  platform_fee_basis_points : Nat
  total_volume : Nat
  paused : Bool
  cross_chain_transactions : List CrossChainTransaction
  fvm_nonce : Nat
deriving DecidableEq, Repr

/-- NEAR host context of one call: `near.predecessorAccountId()`,
`near.attachedDeposit()`, `near.blockTimestamp()`. -/
structure Env where
  predecessor : String
  deposit : Nat
  timestamp : Nat
deriving DecidableEq, Repr

/-- Model of `LookupMap.get`: first binding of the key. -/
def lookupAssoc {α β : Type} [DecidableEq α] (k : α) : List (α × β) → Option β
  | [] => none
  | (k', v) :: rest => if k' = k then some v else lookupAssoc k rest

/-- Model of `LookupMap.set`: replace the first binding of the key, else append. -/
def setAssoc {α β : Type} [DecidableEq α] (k : α) (v : β) : List (α × β) → List (α × β)
  | [] => [(k, v)]
  | (k', v') :: rest => if k' = k then (k, v) :: rest else (k', v') :: setAssoc k v rest

/-- The `@initialize init` method: sets owner and fee, resets every store.
No validation is performed on `platform_fee_basis_points`. -/
def initState (owner : String) (platform_fee_basis_points : Nat) : State where
  owner := owner
  next_round_id := 1
  rounds := []
  predictions := []
  user_predictions := []
  platform_fee_basis_points := platform_fee_basis_points
  total_volume := 0
  paused := false
  cross_chain_transactions := []
  fvm_nonce := 0

/-- Method `open_round` with arguments title and description. -/
def open_round (e : Env) (title description : String) (s : State) :
    State × Except Err Nat :=
  if e.predecessor ≠ s.owner then (s, .error .Unauthorized)
  else if s.paused then (s, .error .ContractPaused)
  else if title.length = 0 ∨ title.length > 100 then (s, .error .InvalidTitleLength)
  else if description.length > 500 then (s, .error .DescriptionTooLong)
  else
    let round_id := s.next_round_id
    let round : Round :=
      { id := round_id, title := title, description := description
        status := .Open, created_at := e.timestamp
        total_yes_amount := 0, total_no_amount := 0
        yes_predictions := 0, no_predictions := 0, creator := e.predecessor }
    ({ s with rounds := setAssoc round_id round s.rounds
              next_round_id := round_id + 1 }, .ok round_id)

/-- Method `close_round` with argument round id. -/
def close_round (e : Env) (round_id : Nat) (s : State) : State × Except Err Unit :=
  if e.predecessor ≠ s.owner then (s, .error .Unauthorized)
  else match lookupAssoc round_id s.rounds with
    | none => (s, .error .RoundNotFound)
    | some round =>
      if round.status ≠ .Open then (s, .error .RoundNotOpen)
      else
        let round' := { round with status := .Closed, closed_at := some e.timestamp }
        ({ s with rounds := setAssoc round_id round' s.rounds }, .ok ())

/-- Method `settle_round` with round id, result and winner address.  After the status
update it appends, when the winning pool is positive and the winner address
non-empty (JS truthiness of the string), one `CrossChainTransaction` in
status `pending` with the pool amount divided by `USDFC_DIVISOR`, and
increments `fvm_nonce` (done inside `build_fvm_mint_payload`); the
chain-signature request itself is an outbound promise, external to state. -/
def settle_round (e : Env) (round_id : Nat) (result : Bool) (winner_address : String)
    (s : State) : State × Except Err Unit :=
  if e.predecessor ≠ s.owner then (s, .error .Unauthorized)
  else match lookupAssoc round_id s.rounds with
    | none => (s, .error .RoundNotFound)
    | some round =>
      if round.status ≠ .Closed then (s, .error .RoundNotClosed)
      else
        let round' := { round with status := .Settled, result := some result,
                                   settled_at := some e.timestamp }
        let s1 := { s with rounds := setAssoc round_id round' s.rounds }
        let winning_pool_amount := if result then round.total_yes_amount else round.total_no_amount
        if winning_pool_amount > 0 ∧ winner_address ≠ "" then
          let usdfc_amount := winning_pool_amount / USDFC_DIVISOR
          let tx : CrossChainTransaction :=
            { round_id := round_id, winner := winner_address, amount := usdfc_amount
              status := "pending", created_at := e.timestamp }
          ({ s1 with cross_chain_transactions := s1.cross_chain_transactions ++ [tx]
                     fvm_nonce := s1.fvm_nonce + 1 }, .ok ())
        else (s1, .ok ())

/-- Method `predict_internal`, shared body of `predict_yes`
and `predict_no`.  The attached deposit is the stake. -/
def predict_internal (e : Env) (round_id : Nat) (prediction : Bool) (s : State) :
    State × Except Err Unit :=
  if s.paused then (s, .error .ContractPaused)
  else if e.deposit < MIN_PREDICTION_AMOUNT then (s, .error .AmountTooLow)
  else match lookupAssoc round_id s.rounds with
    | none => (s, .error .RoundNotFound)
    | some round =>
      if round.status ≠ .Open then (s, .error .RoundNotOpen)
      else
        let amount := e.deposit
        let predictor := e.predecessor
        let prediction_data : Prediction :=
          { round_id := round_id, predictor := predictor, amount := amount
            prediction := prediction, timestamp := e.timestamp, claimed := false }
        let round' :=
          if prediction then
            { round with total_yes_amount := round.total_yes_amount + amount
                         yes_predictions := round.yes_predictions + 1 }
          else
            { round with total_no_amount := round.total_no_amount + amount
                         no_predictions := round.no_predictions + 1 }
        let prediction_index := s.predictions.length
        let user_preds := (lookupAssoc predictor s.user_predictions).getD []
        ({ s with
            predictions := s.predictions ++ [prediction_data]
            user_predictions := setAssoc predictor (user_preds ++ [prediction_index])
              s.user_predictions
            rounds := setAssoc round_id round' s.rounds
            total_volume := s.total_volume + amount }, .ok ())

/-- Payable method `predict_yes`. -/
def predict_yes (e : Env) (round_id : Nat) (s : State) : State × Except Err Unit :=
  predict_internal e round_id true s

/-- Payable method `predict_no`. -/
def predict_no (e : Env) (round_id : Nat) (s : State) : State × Except Err Unit :=
  predict_internal e round_id false s

/-- Method `claim_winnings`.  On success returns the amount transferred to
the predictor by the outbound `promiseBatchActionTransfer`.  The payout is
computed in signed `bigint` arithmetic, modelled as `Int`: JS `BigInt`
division truncates toward zero, which is `Int.tdiv`, and `net_losing_pool`
is a true signed difference — it is negative whenever the (unvalidated)
`platform_fee_basis_points` exceeds 10000. -/
def claim_winnings (e : Env) (prediction_index : Nat) (s : State) :
    State × Except Err Int :=
  match s.predictions[prediction_index]? with
  | none => (s, .error .PredictionNotFound)
  | some prediction =>
    if prediction.predictor ≠ e.predecessor then (s, .error .NotYourPrediction)
    else if prediction.claimed then (s, .error .AlreadyClaimed)
    else match lookupAssoc prediction.round_id s.rounds with
      | none => (s, .error .RoundNotFound)
      | some round =>
        if round.status ≠ .Settled then (s, .error .RoundNotSettled)
        else match round.result with
          | none => (s, .error .NoResultAvailable)
          | some result =>
            if prediction.prediction ≠ result then (s, .error .PredictionIncorrect)
            else
              let total_winning_pool :=
                if prediction.prediction then round.total_yes_amount else round.total_no_amount
              let total_losing_pool :=
                if prediction.prediction then round.total_no_amount else round.total_yes_amount
              if total_winning_pool = 0 then (s, .error .NoWinningPool)
              else
                let platform_fee : Int :=
                  Int.tdiv ((total_losing_pool : Int) * (s.platform_fee_basis_points : Int))
                    10000
                let net_losing_pool : Int := (total_losing_pool : Int) - platform_fee
                let winnings : Int :=
                  (prediction.amount : Int)
                    + Int.tdiv ((prediction.amount : Int) * net_losing_pool)
                        (total_winning_pool : Int)
                let prediction' := { prediction with claimed := true }
                ({ s with predictions := s.predictions.set prediction_index prediction' },
                 .ok winnings)

/-- Method `set_platform_fee`. -/
def set_platform_fee (e : Env) (basis_points : Nat) (s : State) : State × Except Err Unit :=
  if e.predecessor ≠ s.owner then (s, .error .Unauthorized)
  else if basis_points > 1000 then (s, .error .FeeTooHigh)
  else ({ s with platform_fee_basis_points := basis_points }, .ok ())

/-- Method `pause_contract`. -/
def pause_contract (e : Env) (s : State) : State × Except Err Unit :=
  if e.predecessor ≠ s.owner then (s, .error .Unauthorized)
  else ({ s with paused := true }, .ok ())

/-- Method `unpause_contract`. -/
def unpause_contract (e : Env) (s : State) : State × Except Err Unit :=
  if e.predecessor ≠ s.owner then (s, .error .Unauthorized)
  else ({ s with paused := false }, .ok ())

/-- Method `withdraw_fees`: the transfer is an outbound promise on the account
balance, outside the contract fields; no contract field changes. -/
def withdraw_fees (e : Env) (s : State) : State × Except Err Unit :=
  if e.predecessor ≠ s.owner then (s, .error .Unauthorized)
  else (s, .ok ())

/-- Method `update_cross_chain_status`.  No caller
check and no transition validation: the status string is written as-is
(`status as any`); the hash is written only when supplied and truthy
(non-empty). -/
def update_cross_chain_status (tx_index : Nat) (status : String)
    (fvm_tx_hash : Option String) (s : State) : State × Except Err Unit :=
  match s.cross_chain_transactions[tx_index]? with
  | none => (s, .error .TransactionNotFound)
  | some tx =>
    let tx1 := { tx with status := status }
    let tx2 :=
      match fvm_tx_hash with
      | some h => if h ≠ "" then { tx1 with fvm_tx_hash := some h } else tx1
      | none => tx1
    ({ s with cross_chain_transactions := s.cross_chain_transactions.set tx_index tx2 },
     .ok ())

/-- Callback `on_signature_result`.  Here `sig_result` is the
string from `near.promiseResult(0)`; `parse_ok` models whether
`JSON.parse(signature_result)` succeeds; `payload_json` is the serialized
`{transaction, signature}` string stored on success.  An out-of-range index
makes the non-null assertion `get(tx_index)!` fault, aborting the call. -/
def on_signature_result (tx_index : Nat) (sig_result : String) (parse_ok : Bool)
    (payload_json : String) (s : State) : State × Except Err Unit :=
  match s.cross_chain_transactions[tx_index]? with
  | none => (s, .error .TransactionNotFound)
  | some tx =>
    if sig_result.length = 0 then
      let tx' : CrossChainTransaction := { tx with status := "failed" }
      ({ s with cross_chain_transactions := s.cross_chain_transactions.set tx_index tx' },
       .ok ())
    else if parse_ok then
      let tx' : CrossChainTransaction :=
        { tx with signed_payload := some payload_json, status := "signed" }
      ({ s with cross_chain_transactions := s.cross_chain_transactions.set tx_index tx' },
       .ok ())
    else
      let tx' : CrossChainTransaction := { tx with status := "failed" }
      ({ s with cross_chain_transactions := s.cross_chain_transactions.set tx_index tx' },
       .ok ())

/-- One public state-mutating call of the contract, with arbitrary host
context and arguments.  The resulting state is the first component of the
operation, whether the call succeeded or threw. -/
inductive Step : State → State → Prop
  | openRound (e : Env) (t d : String) (s : State) : Step s (open_round e t d s).1
  | closeRound (e : Env) (rid : Nat) (s : State) : Step s (close_round e rid s).1
  | settleRound (e : Env) (rid : Nat) (res : Bool) (w : String) (s : State) :
      Step s (settle_round e rid res w s).1
  | predictYes (e : Env) (rid : Nat) (s : State) : Step s (predict_yes e rid s).1
  | predictNo (e : Env) (rid : Nat) (s : State) : Step s (predict_no e rid s).1
  | claimWinnings (e : Env) (i : Nat) (s : State) : Step s (claim_winnings e i s).1
  | setPlatformFee (e : Env) (bps : Nat) (s : State) : Step s (set_platform_fee e bps s).1
  | pauseContract (e : Env) (s : State) : Step s (pause_contract e s).1
  | unpauseContract (e : Env) (s : State) : Step s (unpause_contract e s).1
  | withdrawFees (e : Env) (s : State) : Step s (withdraw_fees e s).1
  | updateCrossChainStatus (i : Nat) (st : String) (h : Option String) (s : State) :
      Step s (update_cross_chain_status i st h s).1
  | onSignatureResult (i : Nat) (sig : String) (ok : Bool) (pj : String) (s : State) :
      Step s (on_signature_result i sig ok pj s).1

/-- Reflexive-transitive closure of `Step`. -/
inductive Reaches : State → State → Prop
  | refl (s : State) : Reaches s s
  | tail {s t u : State} : Reaches s t → Step t u → Reaches s u

/-- A state reachable from some `init` call by public calls. -/
def Reachable (s : State) : Prop :=
  ∃ owner bps, Reaches (initState owner bps) s

/-- Looking up the key just set yields the new value. -/
theorem lookupAssoc_setAssoc_self {α β : Type} [DecidableEq α] (k : α) (v : β)
    (l : List (α × β)) : lookupAssoc k (setAssoc k v l) = some v := by
  induction l with
  | nil => simp [lookupAssoc, setAssoc]
  | cons hd tl ih =>
    obtain ⟨k', v'⟩ := hd
    by_cases hk : k' = k
    · simp [lookupAssoc, setAssoc, hk]
    · simp [lookupAssoc, setAssoc, hk, ih]

/-- Looking up a different key is unaffected by `setAssoc`. -/
theorem lookupAssoc_setAssoc_ne {α β : Type} [DecidableEq α] {k k' : α} (v : β)
    (l : List (α × β)) (hne : k' ≠ k) :
    lookupAssoc k' (setAssoc k v l) = lookupAssoc k' l := by
  have hne' : ¬ k = k' := fun h => hne h.symm
  induction l with
  | nil => simp [lookupAssoc, setAssoc, hne']
  | cons hd tl ih =>
    obtain ⟨k0, v0⟩ := hd
    by_cases hk : k0 = k
    · subst hk
      simp [lookupAssoc, setAssoc, hne']
    · simp [lookupAssoc, setAssoc, hk, ih]

/-- Sum of the stakes of the predictions on round `rid` and side `side`. -/
def sideSum (rid : Nat) (side : Bool) : List Prediction → Nat
  | [] => 0
  | p :: rest =>
    (if p.round_id = rid ∧ p.prediction = side then p.amount else 0) + sideSum rid side rest

/-- Sum of the stakes of all predictions on round `rid`. -/
def roundSum (rid : Nat) : List Prediction → Nat
  | [] => 0
  | p :: rest => (if p.round_id = rid then p.amount else 0) + roundSum rid rest

theorem sideSum_append (rid : Nat) (side : Bool) (l₁ l₂ : List Prediction) :
    sideSum rid side (l₁ ++ l₂) = sideSum rid side l₁ + sideSum rid side l₂ := by
  induction l₁ with
  | nil => simp [sideSum]
  | cons p rest ih => simp [sideSum, ih]; omega

theorem sideSum_eq_zero (rid : Nat) (side : Bool) (l : List Prediction)
    (h : ∀ p ∈ l, p.round_id ≠ rid) : sideSum rid side l = 0 := by
  induction l with
  | nil => rfl
  | cons p rest ih =>
    have hp := h p (by simp)
    simp [sideSum, hp, ih fun q hq => h q (by simp [hq])]

/-- Replacing an element by one with the same round, side and amount leaves
every side sum unchanged. -/
theorem sideSum_set (rid : Nat) (side : Bool) (l : List Prediction) (i : Nat)
    (p p' : Prediction) (hi : l[i]? = some p)
    (hr : p'.round_id = p.round_id) (hs : p'.prediction = p.prediction)
    (ha : p'.amount = p.amount) :
    sideSum rid side (l.set i p') = sideSum rid side l := by
  induction l generalizing i with
  | nil => simp at hi
  | cons q rest ih =>
    cases i with
    | zero =>
      simp at hi
      subst hi
      simp [sideSum, hr, hs, ha]
    | succ j =>
      simp at hi
      simp [sideSum, List.set, ih j hi]

/-- The two side sums of a round partition its total sum. -/
theorem roundSum_eq_sideSums (rid : Nat) (l : List Prediction) :
    roundSum rid l = sideSum rid true l + sideSum rid false l := by
  induction l with
  | nil => rfl
  | cons p rest ih =>
    by_cases hp : p.round_id = rid
    · cases hside : p.prediction
      · simp [roundSum, sideSum, hp, hside, ih]
        omega
      · simp [roundSum, sideSum, hp, hside, ih]
        omega
    · simp [roundSum, sideSum, hp, ih]

/-- A positive side sum over predictions all of stake at least `m` is itself
at least `m`. -/
theorem sideSum_pos_ge (rid : Nat) (side : Bool) (m : Nat) (l : List Prediction)
    (hmin : ∀ p ∈ l, m ≤ p.amount) (hpos : 0 < sideSum rid side l) :
    m ≤ sideSum rid side l := by
  induction l with
  | nil => simp [sideSum] at hpos
  | cons p rest ih =>
    by_cases hp : p.round_id = rid ∧ p.prediction = side
    · have := hmin p (by simp)
      simp [sideSum, hp]
      omega
    · have h1 : sideSum rid side (p :: rest) = sideSum rid side rest := by
        simp [sideSum, hp]
      rw [h1] at hpos ⊢
      exact ih (fun q hq => hmin q (by simp [hq])) hpos

/-- Inductive invariant of the contract state: round ids are below the id
counter, predictions reference allocated ids and respect the minimum stake,
and each round's accumulators equal the corresponding prediction sums. -/
structure Inv (s : State) : Prop where
  rounds_lt : ∀ rid r, lookupAssoc rid s.rounds = some r → rid < s.next_round_id
  preds_lt : ∀ p ∈ s.predictions, p.round_id < s.next_round_id
  preds_min : ∀ p ∈ s.predictions, MIN_PREDICTION_AMOUNT ≤ p.amount
  yes_sum : ∀ rid r, lookupAssoc rid s.rounds = some r →
    r.total_yes_amount = sideSum rid true s.predictions
  no_sum : ∀ rid r, lookupAssoc rid s.rounds = some r →
    r.total_no_amount = sideSum rid false s.predictions

/-- The invariant only depends on the rounds, predictions and id counter. -/
theorem Inv.of_eq {s s' : State} (hs : Inv s) (h1 : s'.rounds = s.rounds)
    (h2 : s'.predictions = s.predictions) (h3 : s'.next_round_id = s.next_round_id) :
    Inv s' := by
  constructor
  · intro rid r h
    rw [h1] at h
    rw [h3]
    exact hs.rounds_lt rid r h
  · intro p hp
    rw [h2] at hp
    rw [h3]
    exact hs.preds_lt p hp
  · intro p hp
    rw [h2] at hp
    exact hs.preds_min p hp
  · intro rid r h
    rw [h1] at h
    rw [h2]
    exact hs.yes_sum rid r h
  · intro rid r h
    rw [h1] at h
    rw [h2]
    exact hs.no_sum rid r h

theorem inv_initState (owner : String) (bps : Nat) : Inv (initState owner bps) := by
  constructor <;> simp [initState, lookupAssoc]

theorem inv_open_round (e : Env) (t d : String) (s : State) (hs : Inv s) :
    Inv (open_round e t d s).1 := by
  unfold open_round
  split_ifs with h1 h2 h3 h4
  · exact hs
  · exact hs
  · exact hs
  · exact hs
  · constructor
    · intro rid r h
      simp only at h ⊢
      by_cases hrid : rid = s.next_round_id
      · omega
      · rw [lookupAssoc_setAssoc_ne _ _ hrid] at h
        have := hs.rounds_lt rid r h
        omega
    · intro p hp
      simp only at hp ⊢
      have := hs.preds_lt p hp
      omega
    · intro p hp
      exact hs.preds_min p hp
    · intro rid r h
      simp only at h ⊢
      by_cases hrid : rid = s.next_round_id
      · subst hrid
        rw [lookupAssoc_setAssoc_self] at h
        obtain rfl := Option.some.inj h
        exact (sideSum_eq_zero _ _ _ fun p hp => Nat.ne_of_lt (hs.preds_lt p hp)).symm
      · rw [lookupAssoc_setAssoc_ne _ _ hrid] at h
        exact hs.yes_sum rid r h
    · intro rid r h
      simp only at h ⊢
      by_cases hrid : rid = s.next_round_id
      · subst hrid
        rw [lookupAssoc_setAssoc_self] at h
        obtain rfl := Option.some.inj h
        exact (sideSum_eq_zero _ _ _ fun p hp => Nat.ne_of_lt (hs.preds_lt p hp)).symm
      · rw [lookupAssoc_setAssoc_ne _ _ hrid] at h
        exact hs.no_sum rid r h

/-- Replacing a round's entry by one with the same totals preserves `Inv`
when only the rounds map (and unrelated fields) change. -/
theorem inv_set_round {s s' : State} (hs : Inv s) (rid : Nat) (r r' : Round)
    (hl : lookupAssoc rid s.rounds = some r)
    (hrounds : s'.rounds = setAssoc rid r' s.rounds)
    (hpreds : s'.predictions = s.predictions)
    (hnext : s'.next_round_id = s.next_round_id)
    (hyes : r'.total_yes_amount = r.total_yes_amount)
    (hno : r'.total_no_amount = r.total_no_amount) : Inv s' := by
  constructor
  · intro rid' r0 h
    rw [hrounds] at h
    rw [hnext]
    by_cases hr : rid' = rid
    · subst hr
      exact hs.rounds_lt rid' r hl
    · rw [lookupAssoc_setAssoc_ne _ _ hr] at h
      exact hs.rounds_lt rid' r0 h
  · intro p hp
    rw [hpreds] at hp
    rw [hnext]
    exact hs.preds_lt p hp
  · intro p hp
    rw [hpreds] at hp
    exact hs.preds_min p hp
  · intro rid' r0 h
    rw [hrounds] at h
    rw [hpreds]
    by_cases hr : rid' = rid
    · subst hr
      rw [lookupAssoc_setAssoc_self] at h
      obtain rfl := Option.some.inj h
      rw [hyes]
      exact hs.yes_sum rid' r hl
    · rw [lookupAssoc_setAssoc_ne _ _ hr] at h
      exact hs.yes_sum rid' r0 h
  · intro rid' r0 h
    rw [hrounds] at h
    rw [hpreds]
    by_cases hr : rid' = rid
    · subst hr
      rw [lookupAssoc_setAssoc_self] at h
      obtain rfl := Option.some.inj h
      rw [hno]
      exact hs.no_sum rid' r hl
    · rw [lookupAssoc_setAssoc_ne _ _ hr] at h
      exact hs.no_sum rid' r0 h

theorem inv_close_round (e : Env) (rid : Nat) (s : State) (hs : Inv s) :
    Inv (close_round e rid s).1 := by
  unfold close_round
  split_ifs with h1
  · exact hs
  rcases hl : lookupAssoc rid s.rounds with _ | round
  · simp only [hl]
    exact hs
  simp only [hl]
  split_ifs with h2
  · exact hs
  exact inv_set_round hs rid round _ hl rfl rfl rfl rfl rfl

theorem inv_settle_round (e : Env) (rid : Nat) (res : Bool) (w : String) (s : State)
    (hs : Inv s) : Inv (settle_round e rid res w s).1 := by
  unfold settle_round
  by_cases h1 : e.predecessor ≠ s.owner
  · simp only [if_pos h1]
    exact hs
  simp only [if_neg h1]
  rcases hl : lookupAssoc rid s.rounds with _ | round
  · simp only [hl]
    exact hs
  simp only [hl]
  by_cases h2 : round.status ≠ RoundStatus.Closed
  · simp only [if_pos h2]
    exact hs
  simp only [if_neg h2]
  refine inv_set_round hs rid round
    ({ round with status := RoundStatus.Settled, result := some res,
                  settled_at := some e.timestamp }) hl ?_ ?_ ?_ rfl rfl
  · split <;> first | rfl | (split <;> rfl)
  · split <;> first | rfl | (split <;> rfl)
  · split <;> first | rfl | (split <;> rfl)

/-- Appending a prediction while adding its stake to the matching accumulator
of its round preserves `Inv`. -/
theorem inv_append_pred {s s' : State} (hs : Inv s) (rid : Nat) (round round' : Round)
    (pd : Prediction) (hl : lookupAssoc rid s.rounds = some round)
    (hpd_rid : pd.round_id = rid) (hpd_min : MIN_PREDICTION_AMOUNT ≤ pd.amount)
    (hrounds : s'.rounds = setAssoc rid round' s.rounds)
    (hpreds : s'.predictions = s.predictions ++ [pd])
    (hnext : s'.next_round_id = s.next_round_id)
    (hyes : round'.total_yes_amount
      = round.total_yes_amount + (if pd.prediction then pd.amount else 0))
    (hno : round'.total_no_amount
      = round.total_no_amount + (if pd.prediction then 0 else pd.amount)) :
    Inv s' := by
  constructor
  · intro rid' r0 h
    rw [hrounds] at h
    rw [hnext]
    by_cases hr : rid' = rid
    · subst hr
      exact hs.rounds_lt rid' round hl
    · rw [lookupAssoc_setAssoc_ne _ _ hr] at h
      exact hs.rounds_lt rid' r0 h
  · intro p hp
    rw [hpreds] at hp
    rw [hnext]
    rcases List.mem_append.mp hp with h | h
    · exact hs.preds_lt p h
    · have hpp : p = pd := by simpa using h
      subst hpp
      rw [hpd_rid]
      exact hs.rounds_lt rid round hl
  · intro p hp
    rw [hpreds] at hp
    rcases List.mem_append.mp hp with h | h
    · exact hs.preds_min p h
    · have hpp : p = pd := by simpa using h
      subst hpp
      exact hpd_min
  · intro rid' r0 h
    rw [hrounds] at h
    rw [hpreds, sideSum_append]
    by_cases hr : rid' = rid
    · subst hr
      rw [lookupAssoc_setAssoc_self] at h
      obtain rfl := Option.some.inj h
      rw [hyes, ← hs.yes_sum rid' round hl]
      have hsingle : sideSum rid' true [pd] = if pd.prediction then pd.amount else 0 := by
        cases hb : pd.prediction <;> simp [sideSum, hpd_rid, hb]
      rw [hsingle]
    · rw [lookupAssoc_setAssoc_ne _ _ hr] at h
      have hsingle : sideSum rid' true [pd] = 0 := by
        simp [sideSum, hpd_rid, Ne.symm hr]
      rw [hsingle, Nat.add_zero]
      exact hs.yes_sum rid' r0 h
  · intro rid' r0 h
    rw [hrounds] at h
    rw [hpreds, sideSum_append]
    by_cases hr : rid' = rid
    · subst hr
      rw [lookupAssoc_setAssoc_self] at h
      obtain rfl := Option.some.inj h
      rw [hno, ← hs.no_sum rid' round hl]
      have hsingle : sideSum rid' false [pd] = if pd.prediction then 0 else pd.amount := by
        cases hb : pd.prediction <;> simp [sideSum, hpd_rid, hb]
      rw [hsingle]
    · rw [lookupAssoc_setAssoc_ne _ _ hr] at h
      have hsingle : sideSum rid' false [pd] = 0 := by
        simp [sideSum, hpd_rid, Ne.symm hr]
      rw [hsingle, Nat.add_zero]
      exact hs.no_sum rid' r0 h

theorem inv_predict_internal (e : Env) (rid : Nat) (b : Bool) (s : State) (hs : Inv s) :
    Inv (predict_internal e rid b s).1 := by
  unfold predict_internal
  by_cases h1 : s.paused
  · simp only [if_pos h1]
    exact hs
  simp only [if_neg h1]
  by_cases h2 : e.deposit < MIN_PREDICTION_AMOUNT
  · simp only [if_pos h2]
    exact hs
  simp only [if_neg h2]
  rcases hl : lookupAssoc rid s.rounds with _ | round
  · simp only [hl]
    exact hs
  simp only [hl]
  by_cases h3 : round.status ≠ RoundStatus.Open
  · simp only [if_pos h3]
    exact hs
  simp only [if_neg h3]
  refine inv_append_pred hs rid round
    (if b then
      ({ round with total_yes_amount := round.total_yes_amount + e.deposit
                    yes_predictions := round.yes_predictions + 1 })
     else
      ({ round with total_no_amount := round.total_no_amount + e.deposit
                    no_predictions := round.no_predictions + 1 }))
    ({ round_id := rid, predictor := e.predecessor, amount := e.deposit
       prediction := b, timestamp := e.timestamp, claimed := false })
    hl rfl (Nat.le_of_not_lt h2) ?_ rfl rfl ?_ ?_
  · rfl
  · cases b <;> simp
  · cases b <;> simp

theorem inv_claim_winnings (e : Env) (i : Nat) (s : State) (hs : Inv s) :
    Inv (claim_winnings e i s).1 := by
  unfold claim_winnings
  rcases hp : s.predictions[i]? with _ | p
  · simp only [hp]
    exact hs
  simp only [hp]
  by_cases h1 : p.predictor ≠ e.predecessor
  · simp only [if_pos h1]
    exact hs
  simp only [if_neg h1]
  by_cases h2 : p.claimed
  · simp only [if_pos h2]
    exact hs
  simp only [if_neg h2]
  rcases hl : lookupAssoc p.round_id s.rounds with _ | round
  · simp only [hl]
    exact hs
  simp only [hl]
  by_cases h3 : round.status ≠ RoundStatus.Settled
  · simp only [if_pos h3]
    exact hs
  simp only [if_neg h3]
  rcases hres : round.result with _ | result
  · simp only [hres]
    exact hs
  simp only [hres]
  by_cases h4 : p.prediction ≠ result
  · simp only [if_pos h4]
    exact hs
  simp only [if_neg h4]
  by_cases h5 : (if p.prediction then round.total_yes_amount else round.total_no_amount) = 0
  · simp only [if_pos h5]
    exact hs
  simp only [if_neg h5]
  have hmem : p ∈ s.predictions := List.getElem?_mem hp
  constructor
  · intro rid r0 h
    exact hs.rounds_lt rid r0 h
  · intro q hq
    rcases List.mem_or_eq_of_mem_set hq with h | h
    · exact hs.preds_lt q h
    · subst h
      exact hs.preds_lt p hmem
  · intro q hq
    rcases List.mem_or_eq_of_mem_set hq with h | h
    · exact hs.preds_min q h
    · subst h
      exact hs.preds_min p hmem
  · intro rid r0 h
    dsimp only at h ⊢
    rw [sideSum_set rid true s.predictions i p ({ p with claimed := true }) hp rfl rfl rfl]
    exact hs.yes_sum rid r0 h
  · intro rid r0 h
    dsimp only at h ⊢
    rw [sideSum_set rid false s.predictions i p ({ p with claimed := true }) hp rfl rfl rfl]
    exact hs.no_sum rid r0 h

theorem inv_set_platform_fee (e : Env) (bps : Nat) (s : State) (hs : Inv s) :
    Inv (set_platform_fee e bps s).1 := by
  unfold set_platform_fee
  split_ifs
  · exact hs
  · exact hs
  · exact hs.of_eq rfl rfl rfl

theorem inv_pause_contract (e : Env) (s : State) (hs : Inv s) :
    Inv (pause_contract e s).1 := by
  unfold pause_contract
  split_ifs
  · exact hs
  · exact hs.of_eq rfl rfl rfl

theorem inv_unpause_contract (e : Env) (s : State) (hs : Inv s) :
    Inv (unpause_contract e s).1 := by
  unfold unpause_contract
  split_ifs
  · exact hs
  · exact hs.of_eq rfl rfl rfl

theorem inv_withdraw_fees (e : Env) (s : State) (hs : Inv s) :
    Inv (withdraw_fees e s).1 := by
  unfold withdraw_fees
  split_ifs
  · exact hs
  · exact hs

theorem inv_update_cross_chain_status (i : Nat) (st : String) (h : Option String)
    (s : State) (hs : Inv s) : Inv (update_cross_chain_status i st h s).1 := by
  unfold update_cross_chain_status
  rcases htx : s.cross_chain_transactions[i]? with _ | tx
  · simp only [htx]
    exact hs
  · simp only [htx]
    exact hs.of_eq rfl rfl rfl

theorem inv_on_signature_result (i : Nat) (sig : String) (ok : Bool) (pj : String)
    (s : State) (hs : Inv s) : Inv (on_signature_result i sig ok pj s).1 := by
  unfold on_signature_result
  rcases htx : s.cross_chain_transactions[i]? with _ | tx
  · simp only [htx]
    exact hs
  · simp only [htx]
    split_ifs
    · exact hs.of_eq rfl rfl rfl
    · exact hs.of_eq rfl rfl rfl
    · exact hs.of_eq rfl rfl rfl

/-- Every public call preserves the invariant. -/
theorem inv_step {s s' : State} (hs : Inv s) (hstep : Step s s') : Inv s' := by
  cases hstep with
  | openRound e t d s => exact inv_open_round e t d s hs
  | closeRound e rid s => exact inv_close_round e rid s hs
  | settleRound e rid res w s => exact inv_settle_round e rid res w s hs
  | predictYes e rid s => exact inv_predict_internal e rid true s hs
  | predictNo e rid s => exact inv_predict_internal e rid false s hs
  | claimWinnings e i s => exact inv_claim_winnings e i s hs
  | setPlatformFee e bps s => exact inv_set_platform_fee e bps s hs
  | pauseContract e s => exact inv_pause_contract e s hs
  | unpauseContract e s => exact inv_unpause_contract e s hs
  | withdrawFees e s => exact inv_withdraw_fees e s hs
  | updateCrossChainStatus i st h s => exact inv_update_cross_chain_status i st h s hs
  | onSignatureResult i sig ok pj s => exact inv_on_signature_result i sig ok pj s hs

theorem inv_reaches {s s' : State} (hs : Inv s) (h : Reaches s s') : Inv s' := by
  induction h with
  | refl => exact hs
  | tail _ hstep ih => exact inv_step ih hstep

/-- Every reachable state satisfies the invariant. -/
theorem inv_reachable {s : State} (h : Reachable s) : Inv s := by
  obtain ⟨owner, bps, hr⟩ := h
  exact inv_reaches (inv_initState owner bps) hr

/-! Concrete sample run used to instantiate the theorems below. -/

def envOwner : Env := { predecessor := "owner.near", deposit := 0, timestamp := 1 }

def envAlice : Env :=
  { predecessor := "alice.near", deposit := MIN_PREDICTION_AMOUNT, timestamp := 2 }

def s0ex : State := initState "owner.near" 100

def s1ex : State := (open_round envOwner "Will it rain tomorrow?" "demo round" s0ex).1

def s2ex : State := (predict_yes envAlice 1 s1ex).1

def s3ex : State := (close_round { envOwner with timestamp := 3 } 1 s2ex).1

def s4ex : State := (settle_round { envOwner with timestamp := 4 } 1 true "0xabc" s3ex).1

def s5ex : State := (claim_winnings { envAlice with timestamp := 5 } 0 s4ex).1

def s6ex : State := (update_cross_chain_status 0 "confirmed" (some "0xdeadbeef") s5ex).1

theorem reaches_s2ex : Reaches s0ex s2ex :=
  Reaches.tail
    (Reaches.tail (Reaches.refl s0ex)
      (Step.openRound envOwner "Will it rain tomorrow?" "demo round" s0ex))
    (Step.predictYes envAlice 1 s1ex)

theorem reaches_s4ex : Reaches s0ex s4ex :=
  Reaches.tail
    (Reaches.tail reaches_s2ex (Step.closeRound { envOwner with timestamp := 3 } 1 s2ex))
    (Step.settleRound { envOwner with timestamp := 4 } 1 true "0xabc" s3ex)

theorem reachable_s2ex : Reachable s2ex := ⟨"owner.near", 100, reaches_s2ex⟩

theorem reachable_s4ex : Reachable s4ex := ⟨"owner.near", 100, reaches_s4ex⟩

/-- Characterization of a successful `claim_winnings` call: the prediction was
unclaimed, owned by the caller, its round settled with a matching result and a
non-zero winning pool, and the transferred amount is the pool-split formula of
the contract. -/
theorem claim_winnings_ok_spec (e : Env) (i : Nat) (s : State) (p : Prediction)
    (r : Round) (w : Int) (hp : s.predictions[i]? = some p)
    (hr : lookupAssoc p.round_id s.rounds = some r)
    (hok : (claim_winnings e i s).2 = .ok w) :
    p.claimed = false ∧ p.predictor = e.predecessor ∧ r.status = .Settled ∧
    r.result = some p.prediction ∧
    (if p.prediction then r.total_yes_amount else r.total_no_amount) ≠ 0 ∧
    w = (p.amount : Int) + Int.tdiv ((p.amount : Int) *
        (((if p.prediction then r.total_no_amount else r.total_yes_amount : Nat) : Int) -
         Int.tdiv
           (((if p.prediction then r.total_no_amount else r.total_yes_amount : Nat) : Int) *
             (s.platform_fee_basis_points : Int)) 10000))
        ((if p.prediction then r.total_yes_amount else r.total_no_amount : Nat) : Int) := by
  unfold claim_winnings at hok
  simp only [hp] at hok
  by_cases h1 : p.predictor ≠ e.predecessor
  · simp only [if_pos h1] at hok
    cases hok
  simp only [if_neg h1] at hok
  by_cases h2 : p.claimed
  · simp only [if_pos h2] at hok
    cases hok
  simp only [if_neg h2] at hok
  simp only [hr] at hok
  by_cases h3 : r.status ≠ RoundStatus.Settled
  · simp only [if_pos h3] at hok
    cases hok
  simp only [if_neg h3] at hok
  rcases hres : r.result with _ | result
  · simp only [hres] at hok
    cases hok
  simp only [hres] at hok
  by_cases h4 : p.prediction ≠ result
  · simp only [if_pos h4] at hok
    cases hok
  simp only [if_neg h4] at hok
  by_cases h5 : (if p.prediction then r.total_yes_amount else r.total_no_amount) = 0
  · simp only [if_pos h5] at hok
    cases hok
  simp only [if_neg h5] at hok
  push_neg at h1 h3 h4
  refine ⟨Bool.eq_false_iff.mpr h2, h1, h3, ?_, h5, ?_⟩
  · rw [h4]
  · obtain rfl := Except.ok.inj hok
    rfl

/-- The round of the sample run while still open, after the single yes
prediction of `MIN_PREDICTION_AMOUNT`. -/
def r2ex : Round :=
  { id := 1, title := "Will it rain tomorrow?", description := "demo round"
    status := .Open, created_at := 1
    total_yes_amount := MIN_PREDICTION_AMOUNT, total_no_amount := 0
    yes_predictions := 1, no_predictions := 0, creator := "owner.near" }

/-- The same round once settled with result `true`. -/
def r4ex : Round :=
  { id := 1, title := "Will it rain tomorrow?", description := "demo round"
    status := .Settled, created_at := 1, closed_at := some 3, settled_at := some 4
    result := some true
    total_yes_amount := MIN_PREDICTION_AMOUNT, total_no_amount := 0
    yes_predictions := 1, no_predictions := 0, creator := "owner.near" }

/-- The single prediction of the sample run. -/
def predEx : Prediction :=
  { round_id := 1, predictor := "alice.near", amount := MIN_PREDICTION_AMOUNT
    prediction := true, timestamp := 2, claimed := false }

/-- C2: in every reachable state, each round's `total_yes_amount` equals the
sum of the stakes of the yes predictions on it, symmetrically for no, and
their sum is the total staked on the round. -/
theorem claim_C2_conservation (s : State) (hreach : Reachable s) (rid : Nat) (r : Round)
    (hr : lookupAssoc rid s.rounds = some r) :
    r.total_yes_amount = sideSum rid true s.predictions ∧
    r.total_no_amount = sideSum rid false s.predictions ∧
    r.total_yes_amount + r.total_no_amount = roundSum rid s.predictions := by
  have hinv := inv_reachable hreach
  refine ⟨hinv.yes_sum rid r hr, hinv.no_sum rid r hr, ?_⟩
  rw [hinv.yes_sum rid r hr, hinv.no_sum rid r hr, roundSum_eq_sideSums]

theorem claim_C2_conservation_witness :
    r2ex.total_yes_amount = sideSum 1 true s2ex.predictions ∧
    r2ex.total_no_amount = sideSum 1 false s2ex.predictions ∧
    r2ex.total_yes_amount + r2ex.total_no_amount = roundSum 1 s2ex.predictions :=
  claim_C2_conservation s2ex reachable_s2ex 1 r2ex rfl

/-- C3 (amended): every successful `claim_winnings` transfers exactly
`stake + stake * (losing - losing * fee / 10000) / winning` computed in
signed `bigint` arithmetic whose division truncates toward zero
(`Int.tdiv`), not floor division.  The two conventions agree whenever the
fee is at most 10000 basis points — in particular for every fee settable
through `set_platform_fee` — and in the spec's worked example the sole
Yes-staker of 5_000_000 still receives exactly 7_970_000. -/
theorem claim_C3_payout_formula (e : Env) (i : Nat) (s : State) (p : Prediction)
    (r : Round) (w : Int) (hp : s.predictions[i]? = some p)
    (hr : lookupAssoc p.round_id s.rounds = some r)
    (hok : (claim_winnings e i s).2 = .ok w) :
    w = (p.amount : Int) + Int.tdiv ((p.amount : Int) *
        (((if p.prediction then r.total_no_amount else r.total_yes_amount : Nat) : Int) -
         Int.tdiv
           (((if p.prediction then r.total_no_amount else r.total_yes_amount : Nat) : Int) *
             (s.platform_fee_basis_points : Int)) 10000))
        ((if p.prediction then r.total_yes_amount else r.total_no_amount : Nat) : Int) :=
  (claim_winnings_ok_spec e i s p r w hp hr hok).2.2.2.2.2

/-- The worked payout example of the specification. -/
def predC3 : Prediction :=
  { round_id := 1, predictor := "alice.near", amount := 5000000
    prediction := true, timestamp := 2, claimed := false }

def roundC3 : Round :=
  { id := 1, title := "t", description := "d", status := .Settled, created_at := 1
    closed_at := some 3, settled_at := some 4, result := some true
    total_yes_amount := 5000000, total_no_amount := 3000000
    yes_predictions := 1, no_predictions := 1, creator := "owner.near" }

def sC3 : State :=
  { owner := "owner.near", next_round_id := 2, rounds := [(1, roundC3)]
    predictions := [predC3], user_predictions := [("alice.near", [0])]
    platform_fee_basis_points := 100, total_volume := 8000000, paused := false
    cross_chain_transactions := [], fvm_nonce := 0 }

theorem claim_C3_payout_formula_witness :
    (claim_winnings { predecessor := "alice.near", deposit := 0, timestamp := 9 } 0 sC3).2
      = .ok (7970000 : Int) ∧
    (7970000 : Int) = (predC3.amount : Int) + Int.tdiv ((predC3.amount : Int) *
        (((if predC3.prediction then roundC3.total_no_amount
           else roundC3.total_yes_amount : Nat) : Int) -
         Int.tdiv
           (((if predC3.prediction then roundC3.total_no_amount
              else roundC3.total_yes_amount : Nat) : Int) *
             (sC3.platform_fee_basis_points : Int)) 10000))
        ((if predC3.prediction then roundC3.total_yes_amount
          else roundC3.total_no_amount : Nat) : Int) :=
  ⟨rfl, claim_C3_payout_formula
    { predecessor := "alice.near", deposit := 0, timestamp := 9 }
    0 sC3 predC3 roundC3 7970000 rfl rfl rfl⟩

/-! A run with the (unvalidated) fee set to 20000 basis points, where the
signed payout arithmetic leaves the floor-division region: alice and carol
stake yes, bob stakes no, the round settles yes. -/

def envAliceF : Env :=
  { predecessor := "alice.near", deposit := 1000000000000000000000000, timestamp := 2 }

def envCarolF : Env :=
  { predecessor := "carol.near", deposit := 2000000000000000000000000, timestamp := 3 }

def envBobF : Env :=
  { predecessor := "bob.near", deposit := 1000000000000000000000000, timestamp := 4 }

def sF0 : State := initState "owner.near" 20000

def sF1 : State := (open_round envOwner "Fee above 100 percent" "demo" sF0).1

def sF2 : State := (predict_yes envAliceF 1 sF1).1

def sF3 : State := (predict_yes envCarolF 1 sF2).1

def sF4 : State := (predict_no envBobF 1 sF3).1

def sF5 : State := (close_round { envOwner with timestamp := 5 } 1 sF4).1

def sF6 : State := (settle_round { envOwner with timestamp := 6 } 1 true "" sF5).1

theorem reaches_sF6 : Reaches sF0 sF6 :=
  Reaches.tail
    (Reaches.tail
      (Reaches.tail
        (Reaches.tail
          (Reaches.tail
            (Reaches.tail (Reaches.refl sF0)
              (Step.openRound envOwner "Fee above 100 percent" "demo" sF0))
            (Step.predictYes envAliceF 1 sF1))
          (Step.predictYes envCarolF 1 sF2))
        (Step.predictNo envBobF 1 sF3))
      (Step.closeRound { envOwner with timestamp := 5 } 1 sF4))
    (Step.settleRound { envOwner with timestamp := 6 } 1 true "" sF5)

/-- C3 counterexample: on the reachable state `sF6` — fee 20000 basis points
from the unvalidated `init`, winning pool `W = 3·10^24`, losing pool
`L = 10^24`, stake `s = 10^24` — the contract's bigint arithmetic transfers
`666666666666666666666667` (division truncating toward zero), while the
claim's floor-division formula `s + ⌊s·(L − ⌊L·fee/10000⌋)/W⌋` yields
`666666666666666666666666`: the claim's floor reading is off by one smallest
unit where the net losing pool is negative and the division inexact. -/
theorem claim_C3_cex :
    Reachable sF6 ∧
    (claim_winnings { predecessor := "alice.near", deposit := 0, timestamp := 7 } 0 sF6).2
      = .ok (666666666666666666666667 : Int) ∧
    (666666666666666666666667 : Int)
      ≠ (1000000000000000000000000 : Int) +
        Int.fdiv ((1000000000000000000000000 : Int) *
          ((1000000000000000000000000 : Int) -
           Int.fdiv ((1000000000000000000000000 : Int) * 20000) 10000))
          (3000000000000000000000000 : Int) :=
  ⟨⟨"owner.near", 20000, reaches_sF6⟩, rfl, by decide⟩

/-- C8: when the losing pool of the settled result is empty, a successful
claim pays out exactly the prediction's own stake. -/
theorem claim_C8_zero_losing_pool (e : Env) (i : Nat) (s : State) (p : Prediction)
    (r : Round) (res : Bool) (w : Int) (hp : s.predictions[i]? = some p)
    (hr : lookupAssoc p.round_id s.rounds = some r)
    (hres : r.result = some res)
    (hz : (if res then r.total_no_amount else r.total_yes_amount) = 0)
    (hok : (claim_winnings e i s).2 = .ok w) :
    w = (p.amount : Int) := by
  obtain ⟨-, -, -, hres', -, hw⟩ := claim_winnings_ok_spec e i s p r w hp hr hok
  rw [hres'] at hres
  obtain rfl := Option.some.inj hres
  rw [hz] at hw
  simpa [Int.zero_tdiv] using hw

theorem claim_C8_zero_losing_pool_witness :
    (claim_winnings { envAlice with timestamp := 5 } 0 s4ex).2
      = .ok (MIN_PREDICTION_AMOUNT : Int) ∧
    (MIN_PREDICTION_AMOUNT : Int) = (predEx.amount : Int) :=
  ⟨rfl, claim_C8_zero_losing_pool { envAlice with timestamp := 5 } 0 s4ex predEx r4ex
    true MIN_PREDICTION_AMOUNT rfl rfl rfl rfl rfl⟩

/-- C10: a successful `settle_round` on a reachable state with a positive
winning pool `W` and a non-empty winner address appends exactly one
cross-chain transaction, in status `pending`, with amount `W / 10^21` — and
that amount is at least `1000`, because any positive pool is at least the
minimum stake of `10^24` yoctoNEAR. -/
theorem claim_C10_settle_cross_chain (s : State) (hreach : Reachable s) (e : Env)
    (rid : Nat) (res : Bool) (w : String) (r : Round)
    (hr : lookupAssoc rid s.rounds = some r)
    (hpos : 0 < (if res then r.total_yes_amount else r.total_no_amount))
    (hw : w ≠ "")
    (hok : (settle_round e rid res w s).2 = .ok ()) :
    (settle_round e rid res w s).1.cross_chain_transactions
      = s.cross_chain_transactions ++
        [{ round_id := rid, winner := w
           amount := (if res then r.total_yes_amount else r.total_no_amount) / USDFC_DIVISOR
           fvm_tx_hash := none, signed_payload := none
           status := "pending", created_at := e.timestamp }] ∧
    1000 ≤ (if res then r.total_yes_amount else r.total_no_amount) / USDFC_DIVISOR := by
  have hinv := inv_reachable hreach
  have hW : MIN_PREDICTION_AMOUNT ≤ (if res then r.total_yes_amount else r.total_no_amount) := by
    cases res
    · simp only [Bool.false_eq_true, if_neg] at hpos ⊢
      rw [hinv.no_sum rid r hr] at hpos ⊢
      exact sideSum_pos_ge rid false _ s.predictions hinv.preds_min hpos
    · simp only [if_pos] at hpos ⊢
      rw [hinv.yes_sum rid r hr] at hpos ⊢
      exact sideSum_pos_ge rid true _ s.predictions hinv.preds_min hpos
  have h1000 : (1000 : Nat) = MIN_PREDICTION_AMOUNT / USDFC_DIVISOR := by decide
  refine ⟨?_, h1000 ▸ Nat.div_le_div_right hW⟩
  unfold settle_round at hok ⊢
  by_cases h1 : e.predecessor ≠ s.owner
  · simp only [if_pos h1] at hok
    cases hok
  simp only [if_neg h1, hr] at hok ⊢
  by_cases h2 : r.status ≠ RoundStatus.Closed
  · simp only [if_pos h2] at hok
    cases hok
  simp only [if_neg h2] at hok ⊢
  have hcond : (if res then r.total_yes_amount else r.total_no_amount) > 0 ∧ w ≠ "" :=
    ⟨hpos, hw⟩
  simp only [if_pos hcond]

theorem claim_C10_settle_cross_chain_witness :
    (settle_round { envOwner with timestamp := 4 } 1 true "0xabc" s3ex).1.cross_chain_transactions
      = s3ex.cross_chain_transactions ++
        [{ round_id := 1, winner := "0xabc"
           amount := (if true then r2ex.total_yes_amount else r2ex.total_no_amount) / USDFC_DIVISOR
           fvm_tx_hash := none, signed_payload := none
           status := "pending", created_at := 4 }] ∧
    1000 ≤ (if true then r2ex.total_yes_amount else r2ex.total_no_amount) / USDFC_DIVISOR :=
  claim_C10_settle_cross_chain s3ex
    ⟨"owner.near", 100, Reaches.tail reaches_s2ex
      (Step.closeRound { envOwner with timestamp := 3 } 1 s2ex)⟩
    { envOwner with timestamp := 4 } 1 true "0xabc"
    ({ r2ex with status := .Closed, closed_at := some 3 })
    rfl (by decide) (by decide) rfl

/-- C7: every rejected operation leaves the whole contract state exactly as
it was — each `throw` of the contract happens before any store mutation. -/
theorem claim_C7_atomic_rejection (e : Env) (s : State) :
    (∀ t d err, (open_round e t d s).2 = .error err → (open_round e t d s).1 = s) ∧
    (∀ rid err, (predict_yes e rid s).2 = .error err → (predict_yes e rid s).1 = s) ∧
    (∀ rid err, (predict_no e rid s).2 = .error err → (predict_no e rid s).1 = s) ∧
    (∀ rid err, (close_round e rid s).2 = .error err → (close_round e rid s).1 = s) ∧
    (∀ rid res w err,
      (settle_round e rid res w s).2 = .error err → (settle_round e rid res w s).1 = s) ∧
    (∀ i err, (claim_winnings e i s).2 = .error err → (claim_winnings e i s).1 = s) := by
  have hpi : ∀ rid b err, (predict_internal e rid b s).2 = .error err →
      (predict_internal e rid b s).1 = s := by
    intro rid b err h
    unfold predict_internal at h ⊢
    by_cases h1 : s.paused
    · simp only [if_pos h1]
    simp only [if_neg h1] at h ⊢
    by_cases h2 : e.deposit < MIN_PREDICTION_AMOUNT
    · simp only [if_pos h2]
    simp only [if_neg h2] at h ⊢
    rcases hl : lookupAssoc rid s.rounds with _ | round
    · simp only [hl]
    simp only [hl] at h ⊢
    by_cases h3 : round.status ≠ RoundStatus.Open
    · simp only [if_pos h3]
    simp only [if_neg h3] at h
    cases h
  refine ⟨?_, fun rid err h => hpi rid true err h, fun rid err h => hpi rid false err h,
    ?_, ?_, ?_⟩
  · intro t d err h
    unfold open_round at h ⊢
    split_ifs at h ⊢ <;> rfl
  · intro rid err h
    unfold close_round at h ⊢
    by_cases h1 : e.predecessor ≠ s.owner
    · simp only [if_pos h1]
    simp only [if_neg h1] at h ⊢
    rcases hl : lookupAssoc rid s.rounds with _ | round
    · simp only [hl]
    simp only [hl] at h ⊢
    by_cases h2 : round.status ≠ RoundStatus.Open
    · simp only [if_pos h2]
    simp only [if_neg h2] at h
    cases h
  · intro rid res w err h
    unfold settle_round at h ⊢
    by_cases h1 : e.predecessor ≠ s.owner
    · simp only [if_pos h1]
    simp only [if_neg h1] at h ⊢
    rcases hl : lookupAssoc rid s.rounds with _ | round
    · simp only [hl]
    simp only [hl] at h ⊢
    by_cases h2 : round.status ≠ RoundStatus.Closed
    · simp only [if_pos h2]
    simp only [if_neg h2] at h
    split at h <;> first | cases h | (split at h <;> cases h)
  · intro i err h
    unfold claim_winnings at h ⊢
    rcases hp : s.predictions[i]? with _ | p
    · simp only [hp]
    simp only [hp] at h ⊢
    by_cases h1 : p.predictor ≠ e.predecessor
    · simp only [if_pos h1]
    simp only [if_neg h1] at h ⊢
    by_cases h2 : p.claimed
    · simp only [if_pos h2]
    simp only [if_neg h2] at h ⊢
    rcases hl : lookupAssoc p.round_id s.rounds with _ | round
    · simp only [hl]
    simp only [hl] at h ⊢
    by_cases h3 : round.status ≠ RoundStatus.Settled
    · simp only [if_pos h3]
    simp only [if_neg h3] at h ⊢
    rcases hres : round.result with _ | result
    · simp only [hres]
    simp only [hres] at h ⊢
    by_cases h4 : p.prediction ≠ result
    · simp only [if_pos h4]
    simp only [if_neg h4] at h ⊢
    by_cases h5 : (if p.prediction then round.total_yes_amount else round.total_no_amount) = 0
    · simp only [if_pos h5]
    simp only [if_neg h5] at h
    cases h

theorem claim_C7_atomic_rejection_witness :
    (open_round { predecessor := "bob.near", deposit := 0, timestamp := 1 }
        "T" "" s0ex).2 = .error .Unauthorized ∧
    (open_round { predecessor := "bob.near", deposit := 0, timestamp := 1 }
        "T" "" s0ex).1 = s0ex :=
  ⟨rfl, (claim_C7_atomic_rejection
    { predecessor := "bob.near", deposit := 0, timestamp := 1 } s0ex).1
    "T" "" .Unauthorized rfl⟩

/-- C1 (amended): `update_cross_chain_status` performs no transition
validation at all.  For every existing transaction — whatever its current
status, `confirmed` and `failed` included — and every target status string,
the call succeeds and overwrites the status (and the hash when a non-empty
one is supplied); it fails only when the index does not exist, with
`TransactionNotFound`, never with an `InvalidTransition` error (which does
not exist in the contract). -/
theorem claim_C1_update_status_unvalidated (i : Nat) (st : String) (h : Option String)
    (s : State) :
    (∀ tx, s.cross_chain_transactions[i]? = some tx →
      (update_cross_chain_status i st h s).2 = .ok () ∧
      (update_cross_chain_status i st h s).1.cross_chain_transactions
        = s.cross_chain_transactions.set i
            { tx with status := st
                      fvm_tx_hash :=
                        match h with
                        | some hh => if hh ≠ "" then some hh else tx.fvm_tx_hash
                        | none => tx.fvm_tx_hash }) ∧
    (s.cross_chain_transactions[i]? = none →
      (update_cross_chain_status i st h s).2 = .error .TransactionNotFound ∧
      (update_cross_chain_status i st h s).1 = s) := by
  constructor
  · intro tx htx
    unfold update_cross_chain_status
    simp only [htx]
    refine ⟨trivial, ?_⟩
    rcases h with _ | hh
    · rfl
    · by_cases hne : hh ≠ ""
      · simp only [if_pos hne]
      · simp only [if_neg hne]
  · intro htx
    unfold update_cross_chain_status
    simp only [htx]
    exact ⟨trivial, trivial⟩

theorem claim_C1_update_status_unvalidated_witness :
    (update_cross_chain_status 0 "relayed" (some "0xbeef") s6ex).2 = .ok () ∧
    (update_cross_chain_status 0 "relayed" (some "0xbeef") s6ex).1.cross_chain_transactions
      = s6ex.cross_chain_transactions.set 0
          { round_id := 1, winner := "0xabc", amount := 1000
            fvm_tx_hash := some "0xbeef", signed_payload := none
            status := "relayed", created_at := 4 } :=
  (claim_C1_update_status_unvalidated 0 "relayed" (some "0xbeef") s6ex).1
    { round_id := 1, winner := "0xabc", amount := 1000
      fvm_tx_hash := some "0xdeadbeef", signed_payload := none
      status := "confirmed", created_at := 4 } rfl

theorem reaches_s6ex : Reaches s0ex s6ex :=
  Reaches.tail
    (Reaches.tail reaches_s4ex (Step.claimWinnings { envAlice with timestamp := 5 } 0 s4ex))
    (Step.updateCrossChainStatus 0 "confirmed" (some "0xdeadbeef") s5ex)

/-- C1 counterexample: on a reachable state whose only cross-chain
transaction has status `confirmed` (terminal per the claim), updating it
back to `pending` does not fail with any error — it succeeds and rewrites
the record's status, refuting the claimed forward-only enforcement. -/
theorem claim_C1_cex :
    Reachable s6ex ∧
    (s6ex.cross_chain_transactions[0]?.map CrossChainTransaction.status)
      = some "confirmed" ∧
    (update_cross_chain_status 0 "pending" none s6ex).2 = .ok () ∧
    ((update_cross_chain_status 0 "pending" none s6ex).1.cross_chain_transactions[0]?.map
      CrossChainTransaction.status) = some "pending" :=
  ⟨⟨"owner.near", 100, reaches_s6ex⟩, rfl, rfl, rfl⟩

/-- C9: submitting the same `(status, hash)` twice in a row to
`update_cross_chain_status` is idempotent: the second call also succeeds and
leaves the state — in particular the transaction record — exactly as after
the first call. -/
theorem claim_C9_update_status_idem (i : Nat) (st : String) (h : Option String)
    (s : State) (tx : CrossChainTransaction)
    (htx : s.cross_chain_transactions[i]? = some tx) :
    (update_cross_chain_status i st h s).2 = .ok () ∧
    (update_cross_chain_status i st h (update_cross_chain_status i st h s).1).2 = .ok () ∧
    (update_cross_chain_status i st h (update_cross_chain_status i st h s).1).1
      = (update_cross_chain_status i st h s).1 := by
  have hlen : i < s.cross_chain_transactions.length := (List.getElem?_eq_some.mp htx).1
  unfold update_cross_chain_status
  simp only [htx]
  rcases h with _ | hh
  · simp [List.getElem?_set_self hlen, List.set_set]
  · by_cases hne : hh ≠ ""
    · simp [hne, List.getElem?_set_self hlen, List.set_set]
    · simp [hne, List.getElem?_set_self hlen, List.set_set]

theorem claim_C9_update_status_idem_witness :
    (update_cross_chain_status 0 "relayed" (some "0xbeef") s4ex).2 = .ok () ∧
    (update_cross_chain_status 0 "relayed" (some "0xbeef")
      (update_cross_chain_status 0 "relayed" (some "0xbeef") s4ex).1).2 = .ok () ∧
    (update_cross_chain_status 0 "relayed" (some "0xbeef")
      (update_cross_chain_status 0 "relayed" (some "0xbeef") s4ex).1).1
      = (update_cross_chain_status 0 "relayed" (some "0xbeef") s4ex).1 :=
  claim_C9_update_status_idem 0 "relayed" (some "0xbeef") s4ex
    { round_id := 1, winner := "0xabc", amount := 1000
      fvm_tx_hash := none, signed_payload := none
      status := "pending", created_at := 4 } rfl

theorem open_round_predictions (e : Env) (t d : String) (s : State) :
    (open_round e t d s).1.predictions = s.predictions := by
  unfold open_round
  split_ifs <;> rfl

theorem close_round_predictions (e : Env) (rid : Nat) (s : State) :
    (close_round e rid s).1.predictions = s.predictions := by
  unfold close_round
  repeat' first | rfl | split

theorem settle_round_predictions (e : Env) (rid : Nat) (res : Bool) (w : String)
    (s : State) : (settle_round e rid res w s).1.predictions = s.predictions := by
  unfold settle_round
  by_cases h1 : e.predecessor ≠ s.owner
  · simp only [if_pos h1]
  simp only [if_neg h1]
  rcases hl : lookupAssoc rid s.rounds with _ | round
  · simp only [hl]
  simp only [hl]
  by_cases h2 : round.status ≠ RoundStatus.Closed
  · simp only [if_pos h2]
  simp only [if_neg h2]
  split <;> first | rfl | (split <;> rfl)

theorem set_platform_fee_predictions (e : Env) (bps : Nat) (s : State) :
    (set_platform_fee e bps s).1.predictions = s.predictions := by
  unfold set_platform_fee
  split_ifs <;> rfl

theorem pause_contract_predictions (e : Env) (s : State) :
    (pause_contract e s).1.predictions = s.predictions := by
  unfold pause_contract
  split_ifs <;> rfl

theorem unpause_contract_predictions (e : Env) (s : State) :
    (unpause_contract e s).1.predictions = s.predictions := by
  unfold unpause_contract
  split_ifs <;> rfl

theorem withdraw_fees_predictions (e : Env) (s : State) :
    (withdraw_fees e s).1.predictions = s.predictions := by
  unfold withdraw_fees
  split_ifs <;> rfl

theorem update_cross_chain_status_predictions (i : Nat) (st : String) (h : Option String)
    (s : State) : (update_cross_chain_status i st h s).1.predictions = s.predictions := by
  unfold update_cross_chain_status
  repeat' first | rfl | split

theorem on_signature_result_predictions (i : Nat) (sig : String) (ok : Bool) (pj : String)
    (s : State) : (on_signature_result i sig ok pj s).1.predictions = s.predictions := by
  unfold on_signature_result
  repeat' first | rfl | split

/-- A step never deletes a prediction, never changes its predictor, and never
resets its `claimed` flag. -/
theorem step_pred_mono {s s' : State} (hstep : Step s s') (i : Nat) (p : Prediction)
    (hp : s.predictions[i]? = some p) :
    ∃ p', s'.predictions[i]? = some p' ∧ p'.predictor = p.predictor ∧
      (p.claimed = true → p'.claimed = true) := by
  cases hstep with
  | openRound e t d s =>
    exact ⟨p, (open_round_predictions e t d s).symm ▸ hp, rfl, id⟩
  | closeRound e rid s =>
    exact ⟨p, (close_round_predictions e rid s).symm ▸ hp, rfl, id⟩
  | settleRound e rid res w s =>
    exact ⟨p, (settle_round_predictions e rid res w s).symm ▸ hp, rfl, id⟩
  | setPlatformFee e bps s =>
    exact ⟨p, (set_platform_fee_predictions e bps s).symm ▸ hp, rfl, id⟩
  | pauseContract e s =>
    exact ⟨p, (pause_contract_predictions e s).symm ▸ hp, rfl, id⟩
  | unpauseContract e s =>
    exact ⟨p, (unpause_contract_predictions e s).symm ▸ hp, rfl, id⟩
  | withdrawFees e s =>
    exact ⟨p, (withdraw_fees_predictions e s).symm ▸ hp, rfl, id⟩
  | updateCrossChainStatus j st h s =>
    exact ⟨p, (update_cross_chain_status_predictions j st h s).symm ▸ hp, rfl, id⟩
  | onSignatureResult j sig ok pj s =>
    exact ⟨p, (on_signature_result_predictions j sig ok pj s).symm ▸ hp, rfl, id⟩
  | predictYes e rid s =>
    have hlen : i < s.predictions.length := (List.getElem?_eq_some.mp hp).1
    unfold predict_yes predict_internal
    by_cases h1 : s.paused
    · simp only [if_pos h1]
      exact ⟨p, hp, rfl, id⟩
    simp only [if_neg h1]
    by_cases h2 : e.deposit < MIN_PREDICTION_AMOUNT
    · simp only [if_pos h2]
      exact ⟨p, hp, rfl, id⟩
    simp only [if_neg h2]
    rcases hl : lookupAssoc rid s.rounds with _ | round
    · simp only [hl]
      exact ⟨p, hp, rfl, id⟩
    simp only [hl]
    by_cases h3 : round.status ≠ RoundStatus.Open
    · simp only [if_pos h3]
      exact ⟨p, hp, rfl, id⟩
    simp only [if_neg h3]
    refine ⟨p, ?_, rfl, id⟩
    exact (List.getElem?_append_left hlen).trans hp
  | predictNo e rid s =>
    have hlen : i < s.predictions.length := (List.getElem?_eq_some.mp hp).1
    unfold predict_no predict_internal
    by_cases h1 : s.paused
    · simp only [if_pos h1]
      exact ⟨p, hp, rfl, id⟩
    simp only [if_neg h1]
    by_cases h2 : e.deposit < MIN_PREDICTION_AMOUNT
    · simp only [if_pos h2]
      exact ⟨p, hp, rfl, id⟩
    simp only [if_neg h2]
    rcases hl : lookupAssoc rid s.rounds with _ | round
    · simp only [hl]
      exact ⟨p, hp, rfl, id⟩
    simp only [hl]
    by_cases h3 : round.status ≠ RoundStatus.Open
    · simp only [if_pos h3]
      exact ⟨p, hp, rfl, id⟩
    simp only [if_neg h3]
    refine ⟨p, ?_, rfl, id⟩
    exact (List.getElem?_append_left hlen).trans hp
  | claimWinnings e j s =>
    unfold claim_winnings
    rcases hq : s.predictions[j]? with _ | q
    · simp only [hq]
      exact ⟨p, hp, rfl, id⟩
    simp only [hq]
    by_cases h1 : q.predictor ≠ e.predecessor
    · simp only [if_pos h1]
      exact ⟨p, hp, rfl, id⟩
    simp only [if_neg h1]
    by_cases h2 : q.claimed
    · simp only [if_pos h2]
      exact ⟨p, hp, rfl, id⟩
    simp only [if_neg h2]
    rcases hl : lookupAssoc q.round_id s.rounds with _ | round
    · simp only [hl]
      exact ⟨p, hp, rfl, id⟩
    simp only [hl]
    by_cases h3 : round.status ≠ RoundStatus.Settled
    · simp only [if_pos h3]
      exact ⟨p, hp, rfl, id⟩
    simp only [if_neg h3]
    rcases hres : round.result with _ | result
    · simp only [hres]
      exact ⟨p, hp, rfl, id⟩
    simp only [hres]
    by_cases h4 : q.prediction ≠ result
    · simp only [if_pos h4]
      exact ⟨p, hp, rfl, id⟩
    simp only [if_neg h4]
    by_cases h5 : (if q.prediction then round.total_yes_amount else round.total_no_amount) = 0
    · simp only [if_pos h5]
      exact ⟨p, hp, rfl, id⟩
    simp only [if_neg h5]
    by_cases hij : j = i
    · subst hij
      rw [hp] at hq
      obtain rfl := Option.some.inj hq
      have hlen : j < s.predictions.length := (List.getElem?_eq_some.mp hp).1
      exact ⟨{ p with claimed := true }, List.getElem?_set_self hlen, rfl, fun _ => rfl⟩
    · exact ⟨p, (List.getElem?_set_ne hij).trans hp, rfl, id⟩

/-- Lemma `step_pred_mono` transported along any run. -/
theorem reaches_pred_mono {s s' : State} (hr : Reaches s s') (i : Nat) (p : Prediction)
    (hp : s.predictions[i]? = some p) (hcl : p.claimed = true) :
    ∃ p', s'.predictions[i]? = some p' ∧ p'.predictor = p.predictor ∧
      p'.claimed = true := by
  induction hr with
  | refl => exact ⟨p, hp, rfl, hcl⟩
  | tail _ hstep ih =>
    obtain ⟨q, hq, hqpred, hqcl⟩ := ih
    obtain ⟨q', hq', hqpred', hmono⟩ := step_pred_mono hstep _ q hq
    exact ⟨q', hq', hqpred'.trans hqpred, hmono hqcl⟩

theorem reaches_s3ex : Reaches s0ex s3ex :=
  Reaches.tail reaches_s2ex (Step.closeRound { envOwner with timestamp := 3 } 1 s2ex)

theorem reaches_s5ex : Reaches s0ex s5ex :=
  Reaches.tail reaches_s4ex (Step.claimWinnings { envAlice with timestamp := 5 } 0 s4ex)

/-- Prediction `predEx` after its winnings were claimed. -/
def predExClaimed : Prediction := { predEx with claimed := true }

/-- C4 (amended): a successful `claim_winnings` flips the prediction's
`claimed` flag from `false` to `true`; from then on the flag stays `true`
and the predictor is unchanged under every operation, and any later
`claim_winnings` on the same index fails without touching the state — with
`AlreadyClaimed` when the caller is the predictor, and with
`NotYourPrediction` when any other account calls, because the ownership
check runs before the claimed check. -/
theorem claim_C4_exactly_once (e : Env) (i : Nat) (s : State) :
    (∀ p w, s.predictions[i]? = some p → (claim_winnings e i s).2 = .ok w →
      p.claimed = false ∧
      (claim_winnings e i s).1.predictions[i]? = some { p with claimed := true }) ∧
    (∀ p s', s.predictions[i]? = some p → p.claimed = true → Reaches s s' →
      ∃ p', s'.predictions[i]? = some p' ∧ p'.predictor = p.predictor ∧
        p'.claimed = true) ∧
    (∀ p, s.predictions[i]? = some p → p.claimed = true →
      (claim_winnings e i s).1 = s ∧
      (claim_winnings e i s).2 = .error
        (if p.predictor = e.predecessor then .AlreadyClaimed else .NotYourPrediction)) := by
  refine ⟨?_, ?_, ?_⟩
  · intro p w hp hok
    unfold claim_winnings at hok ⊢
    simp only [hp] at hok ⊢
    by_cases h1 : p.predictor ≠ e.predecessor
    · simp only [if_pos h1] at hok
      cases hok
    simp only [if_neg h1] at hok ⊢
    by_cases h2 : p.claimed
    · simp only [if_pos h2] at hok
      cases hok
    simp only [if_neg h2] at hok ⊢
    rcases hl : lookupAssoc p.round_id s.rounds with _ | round
    · simp only [hl] at hok
      cases hok
    simp only [hl] at hok ⊢
    by_cases h3 : round.status ≠ RoundStatus.Settled
    · simp only [if_pos h3] at hok
      cases hok
    simp only [if_neg h3] at hok ⊢
    rcases hres : round.result with _ | result
    · simp only [hres] at hok
      cases hok
    simp only [hres] at hok ⊢
    by_cases h4 : p.prediction ≠ result
    · simp only [if_pos h4] at hok
      cases hok
    simp only [if_neg h4] at hok ⊢
    by_cases h5 : (if p.prediction then round.total_yes_amount else round.total_no_amount) = 0
    · simp only [if_pos h5] at hok
      cases hok
    simp only [if_neg h5]
    refine ⟨Bool.eq_false_iff.mpr h2, ?_⟩
    have hlen : i < s.predictions.length := (List.getElem?_eq_some.mp hp).1
    exact List.getElem?_set_self hlen
  · intro p s' hp hcl hreach
    exact reaches_pred_mono hreach i p hp hcl
  · intro p hp hcl
    unfold claim_winnings
    simp only [hp]
    by_cases h1 : p.predictor ≠ e.predecessor
    · simp only [if_pos h1]
      rw [if_neg h1]
      exact ⟨trivial, rfl⟩
    · push_neg at h1
      simp [h1, hcl]

theorem claim_C4_exactly_once_witness :
    (claim_winnings { envAlice with timestamp := 9 } 0 s5ex).1 = s5ex ∧
    (claim_winnings { envAlice with timestamp := 9 } 0 s5ex).2 = .error .AlreadyClaimed :=
  (claim_C4_exactly_once { envAlice with timestamp := 9 } 0 s5ex).2.2 predExClaimed rfl rfl

/-- C4 counterexample: after alice's claim on prediction 0, a second
`claim_winnings` on the same index by a different account fails with
`NotYourPrediction`, not with `AlreadyClaimed` as the claim states. -/
theorem claim_C4_cex :
    Reachable s5ex ∧
    (s5ex.predictions[0]?.map Prediction.claimed) = some true ∧
    (claim_winnings { predecessor := "bob.near", deposit := 0, timestamp := 9 } 0 s5ex).2
      = .error .NotYourPrediction ∧
    Err.NotYourPrediction ≠ Err.AlreadyClaimed :=
  ⟨⟨"owner.near", 100, reaches_s5ex⟩, rfl, rfl, by decide⟩

theorem claim_winnings_rounds (e : Env) (j : Nat) (s : State) :
    (claim_winnings e j s).1.rounds = s.rounds := by
  unfold claim_winnings
  repeat' first | rfl | split | dsimp only

theorem set_platform_fee_rounds (e : Env) (bps : Nat) (s : State) :
    (set_platform_fee e bps s).1.rounds = s.rounds := by
  unfold set_platform_fee
  split_ifs <;> rfl

theorem pause_contract_rounds (e : Env) (s : State) :
    (pause_contract e s).1.rounds = s.rounds := by
  unfold pause_contract
  split_ifs <;> rfl

theorem unpause_contract_rounds (e : Env) (s : State) :
    (unpause_contract e s).1.rounds = s.rounds := by
  unfold unpause_contract
  split_ifs <;> rfl

theorem withdraw_fees_rounds (e : Env) (s : State) :
    (withdraw_fees e s).1.rounds = s.rounds := by
  unfold withdraw_fees
  split_ifs <;> rfl

theorem update_cross_chain_status_rounds (i : Nat) (st : String) (h : Option String)
    (s : State) : (update_cross_chain_status i st h s).1.rounds = s.rounds := by
  unfold update_cross_chain_status
  repeat' first | rfl | split

theorem on_signature_result_rounds (i : Nat) (sig : String) (ok : Bool) (pj : String)
    (s : State) : (on_signature_result i sig ok pj s).1.rounds = s.rounds := by
  unfold on_signature_result
  repeat' first | rfl | split

/-- Ordinal of a round status along `Open → Closed → Settled`. -/
def statusRank : RoundStatus → Nat
  | .Open => 0
  | .Closed => 1
  | .Settled => 2

/-- Across any single public call, each existing round keeps its status or
advances it by exactly one rank — never backward, never skipping. -/
theorem step_round_status {s s' : State} (hinv : Inv s) (hstep : Step s s') (rid : Nat)
    (r : Round) (hr : lookupAssoc rid s.rounds = some r) :
    ∃ r', lookupAssoc rid s'.rounds = some r' ∧
      (statusRank r'.status = statusRank r.status ∨
       statusRank r'.status = statusRank r.status + 1) := by
  cases hstep with
  | claimWinnings e j s =>
    exact ⟨r, (claim_winnings_rounds e j s).symm ▸ hr, Or.inl rfl⟩
  | setPlatformFee e bps s =>
    exact ⟨r, (set_platform_fee_rounds e bps s).symm ▸ hr, Or.inl rfl⟩
  | pauseContract e s =>
    exact ⟨r, (pause_contract_rounds e s).symm ▸ hr, Or.inl rfl⟩
  | unpauseContract e s =>
    exact ⟨r, (unpause_contract_rounds e s).symm ▸ hr, Or.inl rfl⟩
  | withdrawFees e s =>
    exact ⟨r, (withdraw_fees_rounds e s).symm ▸ hr, Or.inl rfl⟩
  | updateCrossChainStatus j st h s =>
    exact ⟨r, (update_cross_chain_status_rounds j st h s).symm ▸ hr, Or.inl rfl⟩
  | onSignatureResult j sig ok pj s =>
    exact ⟨r, (on_signature_result_rounds j sig ok pj s).symm ▸ hr, Or.inl rfl⟩
  | openRound e t d s =>
    unfold open_round
    split_ifs
    · exact ⟨r, hr, Or.inl rfl⟩
    · exact ⟨r, hr, Or.inl rfl⟩
    · exact ⟨r, hr, Or.inl rfl⟩
    · exact ⟨r, hr, Or.inl rfl⟩
    · have hne : rid ≠ s.next_round_id := Nat.ne_of_lt (hinv.rounds_lt rid r hr)
      exact ⟨r, (lookupAssoc_setAssoc_ne _ _ hne).trans hr, Or.inl rfl⟩
  | closeRound e rid0 s =>
    unfold close_round
    split_ifs
    · exact ⟨r, hr, Or.inl rfl⟩
    rcases hl : lookupAssoc rid0 s.rounds with _ | round
    · simp only [hl]
      exact ⟨r, hr, Or.inl rfl⟩
    simp only [hl]
    by_cases h2 : round.status ≠ RoundStatus.Open
    · simp only [if_pos h2]
      exact ⟨r, hr, Or.inl rfl⟩
    simp only [if_neg h2]
    push_neg at h2
    by_cases hrid : rid = rid0
    · subst hrid
      rw [hr] at hl
      obtain rfl := Option.some.inj hl
      exact ⟨_, lookupAssoc_setAssoc_self _ _ _, Or.inr (by rw [h2]; rfl)⟩
    · exact ⟨r, (lookupAssoc_setAssoc_ne _ _ hrid).trans hr, Or.inl rfl⟩
  | settleRound e rid0 res w s =>
    by_cases h1 : e.predecessor ≠ s.owner
    · have hrounds : (settle_round e rid0 res w s).1.rounds = s.rounds := by
        unfold settle_round
        simp only [if_pos h1]
      exact ⟨r, hrounds.symm ▸ hr, Or.inl rfl⟩
    rcases hl : lookupAssoc rid0 s.rounds with _ | round
    · have hrounds : (settle_round e rid0 res w s).1.rounds = s.rounds := by
        unfold settle_round
        simp only [if_neg h1, hl]
      exact ⟨r, hrounds.symm ▸ hr, Or.inl rfl⟩
    by_cases h2 : round.status ≠ RoundStatus.Closed
    · have hrounds : (settle_round e rid0 res w s).1.rounds = s.rounds := by
        unfold settle_round
        simp only [if_neg h1, hl, if_pos h2]
      exact ⟨r, hrounds.symm ▸ hr, Or.inl rfl⟩
    have hrounds : (settle_round e rid0 res w s).1.rounds
        = setAssoc rid0 { round with status := RoundStatus.Settled, result := some res, settled_at := some e.timestamp } s.rounds := by
      unfold settle_round
      simp only [if_neg h1, hl, if_neg h2]
      split <;> first | rfl | (split <;> rfl)
    push_neg at h2
    rw [hrounds]
    by_cases hrid : rid = rid0
    · subst hrid
      rw [hr] at hl
      obtain rfl := Option.some.inj hl
      exact ⟨_, lookupAssoc_setAssoc_self _ _ _, Or.inr (by rw [h2]; rfl)⟩
    · exact ⟨r, (lookupAssoc_setAssoc_ne _ _ hrid).trans hr, Or.inl rfl⟩
  | predictYes e rid0 s =>
    unfold predict_yes predict_internal
    by_cases h1 : s.paused
    · simp only [if_pos h1]
      exact ⟨r, hr, Or.inl rfl⟩
    simp only [if_neg h1]
    by_cases hd : e.deposit < MIN_PREDICTION_AMOUNT
    · simp only [if_pos hd]
      exact ⟨r, hr, Or.inl rfl⟩
    simp only [if_neg hd]
    rcases hl : lookupAssoc rid0 s.rounds with _ | round
    · simp only [hl]
      exact ⟨r, hr, Or.inl rfl⟩
    simp only [hl]
    by_cases h2 : round.status ≠ RoundStatus.Open
    · simp only [if_pos h2]
      exact ⟨r, hr, Or.inl rfl⟩
    simp only [if_neg h2]
    by_cases hrid : rid = rid0
    · subst hrid
      rw [hr] at hl
      obtain rfl := Option.some.inj hl
      exact ⟨_, lookupAssoc_setAssoc_self _ _ _, Or.inl rfl⟩
    · exact ⟨r, (lookupAssoc_setAssoc_ne _ _ hrid).trans hr, Or.inl rfl⟩
  | predictNo e rid0 s =>
    unfold predict_no predict_internal
    by_cases h1 : s.paused
    · simp only [if_pos h1]
      exact ⟨r, hr, Or.inl rfl⟩
    simp only [if_neg h1]
    by_cases hd : e.deposit < MIN_PREDICTION_AMOUNT
    · simp only [if_pos hd]
      exact ⟨r, hr, Or.inl rfl⟩
    simp only [if_neg hd]
    rcases hl : lookupAssoc rid0 s.rounds with _ | round
    · simp only [hl]
      exact ⟨r, hr, Or.inl rfl⟩
    simp only [hl]
    by_cases h2 : round.status ≠ RoundStatus.Open
    · simp only [if_pos h2]
      exact ⟨r, hr, Or.inl rfl⟩
    simp only [if_neg h2]
    by_cases hrid : rid = rid0
    · subst hrid
      rw [hr] at hl
      obtain rfl := Option.some.inj hl
      exact ⟨_, lookupAssoc_setAssoc_self _ _ _, Or.inl rfl⟩
    · exact ⟨r, (lookupAssoc_setAssoc_ne _ _ hrid).trans hr, Or.inl rfl⟩

/-- C5 (amended): on every reachable state, `close_round` succeeds only on an
`Open` round and `settle_round` only on a `Closed` one; every public call
keeps each round's status or advances it by exactly one rank along
`Open → Closed → Settled` (so every round's status history is a prefix of
that sequence); and `predict_yes`/`predict_no` on a non-`Open` round fail
with `RoundNotOpen` provided the contract is not paused and the deposit
meets the minimum — the paused and minimum-deposit checks run first, so a
paused contract or a low deposit produces `ContractPaused`/`AmountTooLow`
instead (the call still always fails). -/
theorem claim_C5_status_monotone (s : State) (hreach : Reachable s) :
    (∀ e rid, (close_round e rid s).2 = .ok () →
      ∃ r, lookupAssoc rid s.rounds = some r ∧ r.status = .Open) ∧
    (∀ e rid res w, (settle_round e rid res w s).2 = .ok () →
      ∃ r, lookupAssoc rid s.rounds = some r ∧ r.status = .Closed) ∧
    (∀ s', Step s s' → ∀ rid r, lookupAssoc rid s.rounds = some r →
      ∃ r', lookupAssoc rid s'.rounds = some r' ∧
        (statusRank r'.status = statusRank r.status ∨
         statusRank r'.status = statusRank r.status + 1)) ∧
    (∀ e rid r, lookupAssoc rid s.rounds = some r → r.status ≠ .Open →
      (predict_yes e rid s).2 = .error
        (if s.paused then .ContractPaused
         else if e.deposit < MIN_PREDICTION_AMOUNT then .AmountTooLow
         else .RoundNotOpen) ∧
      (predict_no e rid s).2 = .error
        (if s.paused then .ContractPaused
         else if e.deposit < MIN_PREDICTION_AMOUNT then .AmountTooLow
         else .RoundNotOpen) ∧
      (predict_yes e rid s).1 = s ∧
      (predict_no e rid s).1 = s) := by
  refine ⟨?_, ?_, ?_, ?_⟩
  · intro e rid hok
    unfold close_round at hok
    split_ifs at hok
    rcases hl : lookupAssoc rid s.rounds with _ | round
    · simp only [hl] at hok
      cases hok
    simp only [hl] at hok
    by_cases h2 : round.status ≠ RoundStatus.Open
    · simp only [if_pos h2] at hok
      cases hok
    push_neg at h2
    exact ⟨round, rfl, h2⟩
  · intro e rid res w hok
    unfold settle_round at hok
    by_cases h1 : e.predecessor ≠ s.owner
    · simp only [if_pos h1] at hok
      cases hok
    simp only [if_neg h1] at hok
    rcases hl : lookupAssoc rid s.rounds with _ | round
    · simp only [hl] at hok
      cases hok
    simp only [hl] at hok
    by_cases h2 : round.status ≠ RoundStatus.Closed
    · simp only [if_pos h2] at hok
      cases hok
    push_neg at h2
    exact ⟨round, rfl, h2⟩
  · intro s' hstep rid r hr
    exact step_round_status (inv_reachable hreach) hstep rid r hr
  · intro e rid r hr hstat
    have hboth : ∀ b,
        (predict_internal e rid b s).2 = .error
          (if s.paused then .ContractPaused
           else if e.deposit < MIN_PREDICTION_AMOUNT then .AmountTooLow
           else .RoundNotOpen) ∧
        (predict_internal e rid b s).1 = s := by
      intro b
      unfold predict_internal
      by_cases h1 : s.paused
      · rw [if_pos h1, if_pos h1]
        exact ⟨rfl, rfl⟩
      rw [if_neg h1, if_neg h1]
      by_cases h2 : e.deposit < MIN_PREDICTION_AMOUNT
      · rw [if_pos h2, if_pos h2]
        exact ⟨rfl, rfl⟩
      rw [if_neg h2, if_neg h2]
      simp only [hr]
      rw [if_pos hstat]
      exact ⟨rfl, rfl⟩
    exact ⟨(hboth true).1, (hboth false).1, (hboth true).2, (hboth false).2⟩

/-- The demo round after closing. -/
def r3ex : Round := { r2ex with status := .Closed, closed_at := some 3 }

def envAlice7 : Env :=
  { predecessor := "alice.near", deposit := MIN_PREDICTION_AMOUNT, timestamp := 7 }

theorem claim_C5_status_monotone_witness :
    (predict_yes envAlice7 1 s3ex).2 = .error .RoundNotOpen ∧
    (predict_no envAlice7 1 s3ex).2 = .error .RoundNotOpen ∧
    (predict_yes envAlice7 1 s3ex).1 = s3ex ∧
    (predict_no envAlice7 1 s3ex).1 = s3ex :=
  (claim_C5_status_monotone s3ex ⟨"owner.near", 100, reaches_s3ex⟩).2.2.2
    envAlice7 1 r3ex rfl (by decide)

/-- C5 counterexample: on the closed demo round, `predict_yes` with a deposit
below the minimum fails with `AmountTooLow`, not `RoundNotOpen` — the
deposit check runs before the status check. -/
theorem claim_C5_cex :
    Reachable s3ex ∧
    ((lookupAssoc 1 s3ex.rounds).map Round.status) = some RoundStatus.Closed ∧
    (predict_yes { predecessor := "carol.near", deposit := 0, timestamp := 6 } 1 s3ex).2
      = .error .AmountTooLow ∧
    Err.AmountTooLow ≠ Err.RoundNotOpen :=
  ⟨⟨"owner.near", 100, reaches_s3ex⟩, rfl, rfl, by decide⟩

theorem open_round_fee (e : Env) (t d : String) (s : State) :
    (open_round e t d s).1.platform_fee_basis_points = s.platform_fee_basis_points := by
  unfold open_round
  split_ifs <;> rfl

theorem close_round_fee (e : Env) (rid : Nat) (s : State) :
    (close_round e rid s).1.platform_fee_basis_points = s.platform_fee_basis_points := by
  unfold close_round
  repeat' first | rfl | split

theorem settle_round_fee (e : Env) (rid : Nat) (res : Bool) (w : String) (s : State) :
    (settle_round e rid res w s).1.platform_fee_basis_points
      = s.platform_fee_basis_points := by
  unfold settle_round
  by_cases h1 : e.predecessor ≠ s.owner
  · simp only [if_pos h1]
  simp only [if_neg h1]
  rcases hl : lookupAssoc rid s.rounds with _ | round
  · simp only [hl]
  simp only [hl]
  by_cases h2 : round.status ≠ RoundStatus.Closed
  · simp only [if_pos h2]
  simp only [if_neg h2]
  split <;> first | rfl | (split <;> rfl)

theorem predict_internal_fee (e : Env) (rid : Nat) (b : Bool) (s : State) :
    (predict_internal e rid b s).1.platform_fee_basis_points
      = s.platform_fee_basis_points := by
  unfold predict_internal
  repeat' first | rfl | split

theorem claim_winnings_fee (e : Env) (i : Nat) (s : State) :
    (claim_winnings e i s).1.platform_fee_basis_points = s.platform_fee_basis_points := by
  unfold claim_winnings
  repeat' first | rfl | split | dsimp only

theorem pause_contract_fee (e : Env) (s : State) :
    (pause_contract e s).1.platform_fee_basis_points = s.platform_fee_basis_points := by
  unfold pause_contract
  split_ifs <;> rfl

theorem unpause_contract_fee (e : Env) (s : State) :
    (unpause_contract e s).1.platform_fee_basis_points = s.platform_fee_basis_points := by
  unfold unpause_contract
  split_ifs <;> rfl

theorem withdraw_fees_fee (e : Env) (s : State) :
    (withdraw_fees e s).1.platform_fee_basis_points = s.platform_fee_basis_points := by
  unfold withdraw_fees
  split_ifs <;> rfl

theorem update_cross_chain_status_fee (i : Nat) (st : String) (h : Option String)
    (s : State) : (update_cross_chain_status i st h s).1.platform_fee_basis_points
      = s.platform_fee_basis_points := by
  unfold update_cross_chain_status
  repeat' first | rfl | split

theorem on_signature_result_fee (i : Nat) (sig : String) (ok : Bool) (pj : String)
    (s : State) : (on_signature_result i sig ok pj s).1.platform_fee_basis_points
      = s.platform_fee_basis_points := by
  unfold on_signature_result
  repeat' first | rfl | split

/-- Every public call keeps the fee within the cap: the only call that writes
it, `set_platform_fee`, rejects values above 1000. -/
theorem step_fee_le {s s' : State} (hstep : Step s s')
    (hle : s.platform_fee_basis_points ≤ 1000) :
    s'.platform_fee_basis_points ≤ 1000 := by
  cases hstep with
  | setPlatformFee e bps s =>
    unfold set_platform_fee
    split_ifs with h1 h2
    · exact hle
    · exact hle
    · exact Nat.le_of_not_lt h2
  | openRound e t d s => exact le_of_eq_of_le (open_round_fee e t d s) hle
  | closeRound e rid s => exact le_of_eq_of_le (close_round_fee e rid s) hle
  | settleRound e rid res w s => exact le_of_eq_of_le (settle_round_fee e rid res w s) hle
  | predictYes e rid s => exact le_of_eq_of_le (predict_internal_fee e rid true s) hle
  | predictNo e rid s => exact le_of_eq_of_le (predict_internal_fee e rid false s) hle
  | claimWinnings e i s => exact le_of_eq_of_le (claim_winnings_fee e i s) hle
  | pauseContract e s => exact le_of_eq_of_le (pause_contract_fee e s) hle
  | unpauseContract e s => exact le_of_eq_of_le (unpause_contract_fee e s) hle
  | withdrawFees e s => exact le_of_eq_of_le (withdraw_fees_fee e s) hle
  | updateCrossChainStatus i st h s =>
    exact le_of_eq_of_le (update_cross_chain_status_fee i st h s) hle
  | onSignatureResult i sig ok pj s =>
    exact le_of_eq_of_le (on_signature_result_fee i sig ok pj s) hle

/-- C6 (amended): an owner call to `set_platform_fee` with a value above 1000
basis points fails with the fee error before any state change, and every
public call preserves `platform_fee_basis_points ≤ 1000`; hence the 0–1000
range holds in every state reachable from an initialization whose fee is at
most 1000.  `init` itself, however, performs no validation, so states with a
fee above 10% are reachable through it. -/
theorem claim_C6_fee_cap (s : State) :
    (∀ e bps, e.predecessor = s.owner → 1000 < bps →
      (set_platform_fee e bps s).2 = .error .FeeTooHigh ∧
      (set_platform_fee e bps s).1 = s) ∧
    (∀ s', Step s s' → s.platform_fee_basis_points ≤ 1000 →
      s'.platform_fee_basis_points ≤ 1000) ∧
    (∀ owner bps, bps ≤ 1000 → Reaches (initState owner bps) s →
      s.platform_fee_basis_points ≤ 1000) := by
  refine ⟨?_, ?_, ?_⟩
  · intro e bps howner hbps
    unfold set_platform_fee
    rw [if_neg (by simp [howner]), if_pos hbps]
    exact ⟨rfl, rfl⟩
  · intro s' hstep hle
    exact step_fee_le hstep hle
  · intro owner bps hbps hre
    induction hre with
    | refl => exact hbps
    | tail _ hstep ih => exact step_fee_le hstep ih

theorem claim_C6_fee_cap_witness :
    (set_platform_fee envOwner 2000 s0ex).2 = .error .FeeTooHigh ∧
    (set_platform_fee envOwner 2000 s0ex).1 = s0ex :=
  (claim_C6_fee_cap s0ex).1 envOwner 2000 rfl (by decide)

/-- C6 counterexample: `init` accepts a fee of 5000 basis points (50%)
without validation, so a reachable state violates the claimed global bound
`platform_fee_basis_points ≤ 1000`. -/
theorem claim_C6_cex :
    Reachable (initState "owner.near" 5000) ∧
    (initState "owner.near" 5000).platform_fee_basis_points = 5000 ∧
    ¬ (initState "owner.near" 5000).platform_fee_basis_points ≤ 1000 :=
  ⟨⟨"owner.near", 5000, Reaches.refl _⟩, rfl, by decide⟩

end PredictionPool
